import Mathlib

/-!
Verification of the HTML-scraping core of the OU results extractor.

The development shallowly embeds the two source files:
* `src/src/app/api/results/route.ts` — input validation, the `cleanName`
  helper and the scraping of the three fixed tables out of the fetched page;
* `src/src/app/student-results.tsx` — the `www.`-toggle fallback list and
  the sequential range-orchestration loop.

JavaScript strings are modelled as `List Char`; the JS string operations the
code uses (`trim`, `endsWith`, `slice`, `replace`, `padStart`) are defined
below with their JS semantics.  The parsed HTML document is modelled as the
abstract record of exactly the features the handler queries from cheerio:
the text of every `font` element and the three tables `#AutoNumber3/4/5`.
-/

namespace OU

abbrev Str := List Char

/-- Whitespace test used by `trim`. -/
def wsp (c : Char) : Bool := c.isWhitespace

/-- Leading-whitespace removal (the front half of JS `trim`). -/
def trimStartL (s : Str) : Str := s.dropWhile wsp

/-- Trailing-whitespace removal (the back half of JS `trim`). -/
def trimEndL (s : Str) : Str := (s.reverse.dropWhile wsp).reverse

/-- JS `String.prototype.trim`. -/
def trimL (s : Str) : Str := trimEndL (trimStartL s)

/-- JS `String.prototype.endsWith`. -/
def endsWithL (s suf : Str) : Bool := suf.isSuffixOf s

/-- The pattern of the global regex in `cleanName` (`/Credits/g`). -/
def creditsL : Str := "Credits".toList

/-- JS `fullName.replace(/Credits/g, '')`: left-to-right removal of every
non-overlapping occurrence of `"Credits"` — when the pattern matches at the
current position the scan resumes after it, otherwise it advances one
character. -/
def removeCredits : Str → Str
  | 'C' :: 'r' :: 'e' :: 'd' :: 'i' :: 't' :: 's' :: rest => removeCredits rest
  | c :: rest => c :: removeCredits rest
  | [] => []

/-- JS `String.prototype.includes` for a fixed pattern. -/
def containsSub (pat : Str) : Str → Bool
  | [] => pat.isPrefixOf []
  | c :: rest => pat.isPrefixOf (c :: rest) || containsSub pat rest

/-- JS `String.prototype.replace` with a plain-string pattern: replaces the
first occurrence only, returns the input unchanged when there is none. -/
def replaceFirst (pat rep : Str) : Str → Str
  | [] => if pat.isPrefixOf [] then rep else []
  | c :: rest =>
    if pat.isPrefixOf (c :: rest) then rep ++ (c :: rest).drop pat.length
    else c :: replaceFirst pat rep rest

/-- `cleanName` from `route.ts`: drop every `"Credits"` occurrence, trim,
then strip a trailing exact match of the (truthy) father's name and trim. -/
def cleanName (fullName fatherName : Str) : Str :=
  let cleanedName := trimL (removeCredits fullName)
  if fatherName ≠ [] ∧ endsWithL cleanedName fatherName = true then
    trimL (cleanedName.take (cleanedName.length - fatherName.length))
  else cleanedName

/-! ## The document model and the extractor -/

/-- One table row, as the list of its cells' raw text contents. -/
abbrev Row := List Str

/-- Raw texts the handler reads from the personal-details table
(`#AutoNumber3`): for each label cell, the nested `font` text of the
adjacent sibling cell. -/
structure PersonalTable where
  rawHallTicketNo : Str
  rawName : Str
  rawFatherName : Str
  rawGender : Str
  rawCourse : Str
deriving DecidableEq

/-- Abstract parsed HTML document, holding exactly the features the route
handler queries from cheerio: the text content of each `font` element, and
the rows of the three tables `#AutoNumber3/4/5` when present. -/
structure Doc where
  fontTexts : List Str
  personalTable : Option PersonalTable
  marksTable : Option (List Row)
  resultTable : Option (List Row)
deriving DecidableEq

def notFoundPhrase : Str := "Is Not Found".toList

/-- `$('font:contains("Is Not Found")').text()`: the concatenated text of
every `font` element whose text contains the marker phrase. -/
def matchedNotFoundText (doc : Doc) : Str :=
  (doc.fontTexts.filter (fun t => containsSub notFoundPhrase t)).flatten

inductive Status
  | FOUND
  | NOT_FOUND
deriving DecidableEq

structure PersonalDetails where
  hallTicketNo : Str
  name : Str
  fatherName : Str
  gender : Str
  course : Str
deriving DecidableEq

structure MarkRow where
  subCode : Str
  subjectName : Str
  credits : Str
  gradePoints : Str
  gradeSecurity : Str
deriving DecidableEq

structure ResultSummary where
  semester : Str
  sgpa : Str
  cgpa : Str
deriving DecidableEq

structure StudentRecord where
  status : Status
  message : Option Str := none
  personalDetails : Option PersonalDetails := none
  marks : Option (List MarkRow) := none
  result : Option ResultSummary := none
deriving DecidableEq

/-- The NOT_FOUND message built by the handler. -/
def notFoundMessage (htno : Str) : Str :=
  ("Hall Ticket Number \"".toList) ++ htno ++ ("\" is not found.".toList)

/-- `$(cell).text().trim()` for cell `i` of a row; a missing cell reads as
the empty text (jQuery `.eq` on an out-of-range index). -/
def cellText (r : Row) (i : Nat) : Str := trimL ((r.get? i).getD [])

/-- Personal-details block of the handler, including the name cleanup. -/
def extractPersonal (t : PersonalTable) : PersonalDetails :=
  let fatherName := trimL t.rawFatherName
  { hallTicketNo := trimL t.rawHallTicketNo
    name := cleanName (trimL t.rawName) fatherName
    fatherName := fatherName
    gender := trimL t.rawGender
    course := trimL t.rawCourse }

/-- One `MarkRow` from the five cells of a marks-table row. -/
def markRowOf (r : Row) : MarkRow :=
  { subCode := cellText r 0
    subjectName := cellText r 1
    credits := cellText r 2
    gradePoints := cellText r 3
    gradeSecurity := cellText r 4 }

/-- Marks-table traversal: `.each` over all rows with index `i`, skipping
`i ≤ 1`, emitting a row exactly when it has five cells. -/
def extractMarks (rows : List Row) : List MarkRow :=
  rows.enum.filterMap
    (fun p => if 1 < p.1 ∧ p.2.length = 5 then some (markRowOf p.2) else none)

/-- Truthiness of `row.find('td').first().text().trim()`. -/
def firstCellNonBlank (r : Row) : Bool := !(cellText r 0).isEmpty

/-- The `for (i = rows.length - 1; i >= 0; i--) ... break` scan of the
result table: the first row from the bottom with a non-blank first cell. -/
def lastValidRow (rows : List Row) : Option Row :=
  rows.reverse.find? firstCellNonBlank

def summaryOf (r : Row) : ResultSummary :=
  { semester := cellText r 0, sgpa := cellText r 1, cgpa := cellText r 2 }

/-- Result-table block: the summary of the selected row, if any. -/
def extractResult (rows : List Row) : Option ResultSummary :=
  (lastValidRow rows).map summaryOf

/-- The scraping core of the POST handler (`route.ts` lines 109-198):
not-found short-circuit, then the three independent optional tables. -/
def extract (doc : Doc) (htno : Str) : StudentRecord :=
  if matchedNotFoundText doc ≠ [] then
    { status := .NOT_FOUND, message := some (notFoundMessage htno) }
  else
    { status := .FOUND
      personalDetails := doc.personalTable.map extractPersonal
      marks := doc.marksTable.map extractMarks
      result := doc.resultTable.bind extractResult }

/-- The spec's wording of the name-cleanup rule (spec §4.2 step 3), stated
independently of `cleanName` for comparison: remove all occurrences of the
noise token and trim; then, when the result ends with the non-empty
father's-name string, strip that one trailing occurrence and any trailing
whitespace. -/
def cleanNameSpec (fullName fatherName : Str) : Str :=
  let c := trimL (removeCredits fullName)
  if fatherName ≠ [] ∧ endsWithL c fatherName = true then
    trimEndL (c.take (c.length - fatherName.length))
  else c

/-- The spec's wording of result-row selection (spec §4.2 step 5): the last
row in document order whose first cell has non-empty trimmed text. -/
def lastValidRowSpec (rows : List Row) : Option Row :=
  (rows.filter firstCellNonBlank).getLast?

/-! ## The POST handler around the extractor -/

/-- A fetched response body: its raw text together with the document that
`cheerio.load` parses out of it. -/
structure Page where
  text : Str
  doc : Doc

/-- Outcome of the outbound `fetch` of the results page, as the handler's
`try`/`catch` distinguishes it: an `AbortError` (timeout), a transport
error whose message mentions the network, a non-2xx HTTP status (thrown as
a generic error), or a response body. -/
inductive FetchOutcome
  | timeout
  | networkError
  | httpError (status : Nat)
  | body (page : Page)

def msgRequired : Str := "URL and hall ticket number are required".toList

def msgDigits : Str := "Hall ticket number must be exactly 12 digits".toList

def msgUrl : Str := "Invalid URL format".toList

/-- The `/^\d{12}$/` test on the hall ticket number. -/
def isValidHtno (s : Str) : Bool := s.length == 12 && s.all Char.isDigit

/-- JS truthiness of a request field: present and non-empty. -/
def truthy : Option Str → Bool
  | none => false
  | some s => !s.isEmpty

/-- The three validation gates of the handler, run before the outbound
fetch; `new URL(url)` success is abstracted as the `validUrl` predicate.
`some m` is the 400 response with message `m`. -/
def validateRequest (validUrl : Str → Bool) (url htno : Option Str) : Option Str :=
  if !truthy url || !truthy htno then some msgRequired
  else if !isValidHtno (htno.getD []) then some msgDigits
  else if !validUrl (url.getD []) then some msgUrl
  else none

/-- The handler's response, one constructor per distinct HTTP reply of
`route.ts`: 200 with data, 400, 408, 503, and the catch-all 500. -/
inductive ApiResponse
  | ok (record : StudentRecord)
  | badRequest (msg : Str)
  | requestTimeout
  | serviceUnavailable
  | internalError
deriving DecidableEq

/-- The whole POST handler: validation, then the fetch outcome routed
through the `try`/`catch` — a body shorter than 100 characters throws and
lands in the generic 500 branch, everything else is extracted. -/
def handlePost (validUrl : Str → Bool) (url htno : Option Str)
    (outcome : FetchOutcome) : ApiResponse :=
  match validateRequest validUrl url htno with
  | some m => .badRequest m
  | none =>
    match outcome with
    | .timeout => .requestTimeout
    | .networkError => .serviceUnavailable
    | .httpError _ => .internalError
    | .body page =>
      if page.text.isEmpty || page.text.length < 100 then .internalError
      else .ok (extract page.doc (htno.getD []))

/-! ## Client-side fallback and range orchestration -/

def wwwL : Str := "www.".toList

def httpsL : Str := "https://".toList

def httpsWwwL : Str := "https://www.".toList

/-- The second candidate URL of `fetchResultWithFallback`:
`url.includes('www.') ? url.replace('www.','') : url.replace('https://','https://www.')`. -/
def toggleWww (u : Str) : Str :=
  if containsSub wwwL u = true then replaceFirst wwwL [] u
  else replaceFirst httpsL httpsWwwL u

/-- `normalizeUrl` from `student-results.tsx`. -/
def normalizeUrl (u : Str) : Str :=
  if containsSub wwwL u = true then u
  else replaceFirst httpsL httpsWwwL u

/-- The ordered candidate list `urls` built by `fetchResultWithFallback`. -/
def candidateUrls (u : Str) : List Str := [u, toggleWww u]

/-- The `for (const url of urls)` loop: try each candidate in order, return
the first success; `none` models the final `throw` when every candidate
failed. -/
def tryUrls {R : Type} (tryFetch : Str → Option R) : List Str → Option R
  | [] => none
  | u :: rest =>
    match tryFetch u with
    | some r => some r
    | none => tryUrls tryFetch rest

/-- `fetchResultWithFallback` from `student-results.tsx`. -/
def fetchResultWithFallback {R : Type} (tryFetch : Str → Option R) (u : Str) :
    Option R :=
  tryUrls tryFetch (candidateUrls u)

/-- `rollNo.toString().padStart(12, '0')`. -/
def padTo12 (n : Nat) : Str :=
  let s := (Nat.repr n).toList
  List.replicate (12 - s.length) '0' ++ s

/-- The body of the `fetchResults` loop over an explicit list of roll
numbers: on success append the record and continue, on a hard failure
(`none` from the per-roll fetch, i.e. the thrown error) stop and report the
failing roll number. -/
def runRolls (oracle : Str → Option StudentRecord) :
    List Nat → List StudentRecord × Option Nat
  | [] => ([], none)
  | n :: rest =>
    match oracle (padTo12 n) with
    | none => ([], some n)
    | some r =>
      let res := runRolls oracle rest
      (r :: res.1, res.2)

/-- `fetchResults` from `student-results.tsx`: the sequential
`for (let rollNo = start; rollNo <= end; rollNo++)` loop, returning the
accumulated records and the roll number of the first hard failure, if
any. -/
def fetchResults (oracle : Str → Option StudentRecord) (start fin : Nat) :
    List StudentRecord × Option Nat :=
  if start > fin then ([], none)
  else
    match oracle (padTo12 start) with
    | none => ([], some start)
    | some r =>
      let res := fetchResults oracle (start + 1) fin
      (r :: res.1, res.2)
termination_by fin + 1 - start
decreasing_by
  all_goals omega

/-! ## Concrete sample documents (used by witnesses) -/

/-- A page carrying the not-found marker inside a `font` element while all
three tables are nevertheless present. -/
def markerDocFull : Doc :=
  { fontTexts := [("Your Hall Ticket Number Is Not Found".toList)]
    personalTable := some
      { rawHallTicketNo := ("123456789012".toList)
        rawName := ("JOHN DOE".toList)
        rawFatherName := ("SMITH".toList)
        rawGender := ("MALE".toList)
        rawCourse := ("BE".toList) }
    marksTable := some [[("CS101".toList), ("PROG".toList), ("4".toList), ("9".toList), ("A".toList)]]
    resultTable := some [[("1".toList), ("PASSED-8.50".toList), ("8.50".toList)]] }

/-- A marker-free page whose result table has two populated semester rows
followed by a blank row and an empty row. -/
def resultDoc : Doc :=
  { fontTexts := []
    personalTable := none
    marksTable := none
    resultTable := some
      [[("1".toList), ("PASSED-8.00".toList), ("8.00".toList)]
      , [("2".toList), ("PASSED-8.50".toList), ("8.25".toList)]
      , [("   ".toList), ("x".toList)]
      , []] }

/-- A document with no marker and no tables. -/
def emptyDoc : Doc := { fontTexts := [], personalTable := none, marksTable := none, resultTable := none }

/-- A degenerate fetched page, far below the 100-character threshold. -/
def shortPage : Page := { text := ("oops".toList), doc := emptyDoc }

/-- URL-validity oracle accepting everything (stands in for a parseable URL). -/
def sampleValidUrl : Str → Bool := fun _ => true

def sampleUrl : Option Str := some ("https://www.osmania.ac.in/res07/x.jsp".toList)

def sampleHtno : Option Str := some ("123456789012".toList)

/-- Per-URL fetch oracle succeeding only on one specific URL. -/
def sampleFetch : Str → Option Nat :=
  fun s => if s = ("https://www.x".toList) then some 7 else none

/-- Per-roll oracle that always succeeds with a bare FOUND record. -/
def sampleOracle : Str → Option StudentRecord :=
  fun _ => some { status := .FOUND }

/-! ## Helper lemmas about the string primitives -/

theorem dropWhile_wsp_idem (l : Str) :
    (l.dropWhile wsp).dropWhile wsp = l.dropWhile wsp := by
  induction l with
  | nil => rfl
  | cons a t ih =>
    by_cases h : wsp a = true
    · simp [List.dropWhile_cons, h, ih]
    · simp [List.dropWhile_cons, h]

theorem length_dropWhile_wsp_le (l : Str) :
    (l.dropWhile wsp).length ≤ l.length := by
  induction l with
  | nil => simp
  | cons a t ih =>
    by_cases h : wsp a = true
    · simp only [List.dropWhile_cons, h, if_true]
      exact le_trans ih (Nat.le_succ _)
    · simp [List.dropWhile_cons, h]

theorem wsp_head_false_of_trimStartL_self (a : Char) (l : Str)
    (h : trimStartL (a :: l) = a :: l) : wsp a = false := by
  by_contra hc
  rw [Bool.not_eq_false] at hc
  unfold trimStartL at h
  rw [List.dropWhile_cons, if_pos hc] at h
  have := length_dropWhile_wsp_le l
  rw [h] at this
  simp at this

theorem trimEndL_idem (s : Str) : trimEndL (trimEndL s) = trimEndL s := by
  unfold trimEndL
  rw [List.reverse_reverse, dropWhile_wsp_idem]

theorem trimEndL_append (s : Str) : s = trimEndL s ++ (s.reverse.takeWhile wsp).reverse := by
  unfold trimEndL
  have h := List.takeWhile_append_dropWhile wsp s.reverse
  calc s = s.reverse.reverse := (List.reverse_reverse s).symm
    _ = (s.reverse.takeWhile wsp ++ s.reverse.dropWhile wsp).reverse := by rw [h]
    _ = (s.reverse.dropWhile wsp).reverse ++ (s.reverse.takeWhile wsp).reverse := by
        rw [List.reverse_append]

theorem trimStartL_trimEndL_of_self (s : Str) (h : trimStartL s = s) :
    trimStartL (trimEndL s) = trimEndL s := by
  rcases he : trimEndL s with _ | ⟨a, u⟩
  · rfl
  · have hs := trimEndL_append s
    rw [he] at hs
    have ha : wsp a = false := by
      apply wsp_head_false_of_trimStartL_self a (u ++ (s.reverse.takeWhile wsp).reverse)
      rw [← List.cons_append, ← hs]
      exact h
    unfold trimStartL
    rw [List.dropWhile_cons, if_neg (by simp [ha])]

theorem trimStartL_trimL (s : Str) : trimStartL (trimL s) = trimL s := by
  unfold trimL
  exact trimStartL_trimEndL_of_self _ (dropWhile_wsp_idem s)

theorem trimL_idem (s : Str) : trimL (trimL s) = trimL s := by
  conv_lhs => rw [trimL]
  rw [trimStartL_trimL, trimL, trimEndL_idem]

theorem trimStartL_take_of_self (s : Str) (m : Nat) (h : trimStartL s = s) :
    trimStartL (s.take m) = s.take m := by
  rcases s with _ | ⟨a, t⟩
  · simp [trimStartL]
  · rcases m with _ | m
    · rfl
    · have ha := wsp_head_false_of_trimStartL_self a t h
      simp only [List.take_succ_cons]
      unfold trimStartL
      rw [List.dropWhile_cons, if_neg (by simp [ha])]

theorem trimL_take_of_trimmed (s : Str) (m : Nat) (h : trimStartL s = s) :
    trimL (s.take m) = trimEndL (s.take m) := by
  rw [trimL, trimStartL_take_of_self s m h]

theorem removeCredits_of_not_contains (s : Str)
    (h : containsSub creditsL s = false) : removeCredits s = s := by
  induction s using removeCredits.induct with
  | case1 rest ih =>
    exfalso
    simp [containsSub, creditsL, List.isPrefixOf] at h
  | case2 c rest hne ih =>
    simp only [containsSub, Bool.or_eq_false_iff] at h
    rw [removeCredits]
    · rw [ih h.2]
    · exact hne
  | case3 => rfl

theorem trimL_cleanName (n f : Str) : trimL (cleanName n f) = cleanName n f := by
  unfold cleanName
  dsimp only
  split
  · exact trimL_idem _
  · exact trimL_idem _

/-- Core of the amended idempotence claim: `cleanName` leaves its own
output unchanged as soon as that output is free of the noise token and does
not end with the (non-empty) father's name. -/
theorem cleanName_fix (x f : Str) (ht : trimL x = x)
    (hcred : containsSub creditsL x = false)
    (hend : f = [] ∨ endsWithL x f = false) :
    cleanName x f = x := by
  unfold cleanName
  dsimp only
  rw [removeCredits_of_not_contains x hcred, ht]
  rcases hend with h | h
  · rw [if_neg]
    rintro ⟨hne, _⟩
    exact hne h
  · rw [if_neg]
    rintro ⟨_, he⟩
    rw [h] at he
    cases he

/-! ## Claim theorems -/

/-- C2: name cleanup removes every occurrence of the noise token
`"Credits"` and trims, then strips one trailing exact occurrence of the
non-empty father's name together with any trailing whitespace —
`cleanName` coincides with the spec's wording `cleanNameSpec` on all
inputs, and on the spec's scenario
`cleanName "JOHN DOECreditsSMITH" "SMITH" = "JOHN DOE"`. -/
theorem cleanName_matches_spec :
    (∀ n f : Str, cleanName n f = cleanNameSpec n f)
    ∧ cleanName ("JOHN DOECreditsSMITH".toList) ("SMITH".toList) = ("JOHN DOE".toList) := by
  constructor
  · intro n f
    unfold cleanName cleanNameSpec
    dsimp only
    split
    · exact trimL_take_of_trimmed _ _ (trimStartL_trimL _)
    · rfl
  · decide

/-- C3 (counterexample): name cleanup is not idempotent — for the raw name
`"A SMITH SMITH"` with father's name `"SMITH"` the first pass yields
`"A SMITH"` and a second pass strips the father's name again, yielding
`"A"`. -/
theorem cleanName_not_idem_cex :
    cleanName (cleanName ("A SMITH SMITH".toList) ("SMITH".toList)) ("SMITH".toList)
      ≠ cleanName ("A SMITH SMITH".toList) ("SMITH".toList) := by
  decide

/-- C3 (amended): name cleanup is idempotent provided the cleaned name no
longer contains the noise token `"Credits"` and does not itself end with
the non-empty father's name. -/
theorem cleanName_idem_amended (n f : Str)
    (h1 : containsSub creditsL (cleanName n f) = false)
    (h2 : f = [] ∨ endsWithL (cleanName n f) f = false) :
    cleanName (cleanName n f) f = cleanName n f :=
  cleanName_fix (cleanName n f) f (trimL_cleanName n f) h1 h2

/-- Witness for C3 (amended) at the concrete input
`n = "JOHN DOECreditsSMITH"`, `f = "SMITH"`, whose cleaned name
`"JOHN DOE"` satisfies both side conditions. -/
theorem cleanName_idem_amended_witness :
    containsSub creditsL (cleanName ("JOHN DOECreditsSMITH".toList) ("SMITH".toList)) = false
    ∧ endsWithL (cleanName ("JOHN DOECreditsSMITH".toList) ("SMITH".toList)) ("SMITH".toList) = false
    ∧ cleanName (cleanName ("JOHN DOECreditsSMITH".toList) ("SMITH".toList)) ("SMITH".toList)
        = cleanName ("JOHN DOECreditsSMITH".toList) ("SMITH".toList) :=
  ⟨by decide, by decide,
    cleanName_idem_amended ("JOHN DOECreditsSMITH".toList) ("SMITH".toList)
      (by decide) (Or.inr (by decide))⟩

/-! ## Lemmas about the extractor -/

theorem matchedNotFoundText_ne_nil (doc : Doc) (t : Str)
    (hmem : t ∈ doc.fontTexts) (hc : containsSub notFoundPhrase t = true) :
    matchedNotFoundText doc ≠ [] := by
  intro hnil
  unfold matchedNotFoundText at hnil
  rw [List.flatten_eq_nil_iff] at hnil
  have ht : t = [] := hnil t (List.mem_filter.mpr ⟨hmem, hc⟩)
  rw [ht] at hc
  exact absurd hc (by decide)

theorem filterMap_enumFrom_marks (n : Nat) (hn : 2 ≤ n) (l : List Row) :
    (List.enumFrom n l).filterMap
        (fun p => if 1 < p.1 ∧ p.2.length = 5 then some (markRowOf p.2) else none)
      = (l.filter (fun r => r.length == 5)).map markRowOf := by
  induction l generalizing n with
  | nil => rfl
  | cons a t ih =>
    show List.filterMap _ ((n, a) :: List.enumFrom (n + 1) t) = _
    rw [List.filterMap_cons]
    by_cases h5 : a.length = 5
    · rw [if_pos ⟨by omega, h5⟩, List.filter_cons_of_pos (by simp [h5]),
        List.map_cons, ih (n + 1) (by omega)]
    · rw [if_neg (by rintro ⟨_, hh⟩; exact h5 hh),
        List.filter_cons_of_neg (by simp [h5])]
      exact ih (n + 1) (by omega)

theorem find?_eq_head?_filter (p : Row → Bool) (l : List Row) :
    l.find? p = (l.filter p).head? := by
  induction l with
  | nil => rfl
  | cons a t ih =>
    by_cases h : p a = true
    · rw [List.find?_cons_of_pos _ h, List.filter_cons_of_pos h]
      rfl
    · rw [List.find?_cons_of_neg _ (by simp [h]), List.filter_cons_of_neg (by simp [h])]
      exact ih

/-- The bottom-up `for`-loop scan of the result table agrees with the
spec's description: the last row in document order whose first cell has
non-empty trimmed text. -/
theorem lastValidRow_eq_spec (rows : List Row) :
    lastValidRow rows = lastValidRowSpec rows := by
  unfold lastValidRow lastValidRowSpec
  rw [find?_eq_head?_filter, List.filter_reverse, List.head?_reverse]

/-! ## Claim theorems (continued) -/

/-- C1: whenever some `font` element's text contains the phrase
`"Is Not Found"`, the extractor returns exactly the NOT_FOUND record with
the message naming the requesting roll number, and none of
`personalDetails`, `marks`, `result` — regardless of which tables the
document also carries. -/
theorem not_found_precedence (doc : Doc) (htno : Str)
    (h : ∃ t ∈ doc.fontTexts, containsSub notFoundPhrase t = true) :
    extract doc htno =
      { status := .NOT_FOUND, message := some (notFoundMessage htno),
        personalDetails := none, marks := none, result := none } := by
  obtain ⟨t, hmem, hc⟩ := h
  unfold extract
  rw [if_pos (matchedNotFoundText_ne_nil doc t hmem hc)]

/-- Witness for C1: the marker page that also carries all three tables,
queried with roll number `"123456789012"`. -/
theorem not_found_precedence_witness :
    extract markerDocFull ("123456789012".toList) =
      { status := .NOT_FOUND,
        message := some ("Hall Ticket Number \"123456789012\" is not found.".toList),
        personalDetails := none, marks := none, result := none } :=
  (not_found_precedence markerDocFull ("123456789012".toList)
    ⟨("Your Hall Ticket Number Is Not Found".toList), by decide, by decide⟩).trans
    (by decide)

/-- C4: for a marks table whose first two rows are headers (skipped purely
by position) the traversal emits one `MarkRow` per five-cell row in
document order, skipping rows of any other cell count without shifting the
rest. -/
theorem marks_extraction (r0 r1 : Row) (rest : List Row) :
    extractMarks (r0 :: r1 :: rest)
      = (rest.filter (fun r => r.length == 5)).map markRowOf := by
  unfold extractMarks
  show List.filterMap _ ((0, r0) :: (1, r1) :: List.enumFrom 2 rest) = _
  rw [List.filterMap_cons, List.filterMap_cons,
    if_neg (by rintro ⟨hh, -⟩; simp at hh),
    if_neg (by rintro ⟨hh, -⟩; simp at hh)]
  exact filterMap_enumFrom_marks 2 le_rfl rest

/-- C5: on a marker-free page, the extractor's `result` field is the
summary (trimmed cells 0, 1, 2) of the last row in document order whose
first cell is non-blank, and is omitted when the table is absent or no
such row exists. -/
theorem result_row_selection (doc : Doc) (htno : Str)
    (h : matchedNotFoundText doc = []) :
    (extract doc htno).result
      = doc.resultTable.bind (fun rows => (lastValidRowSpec rows).map summaryOf) := by
  unfold extract
  rw [if_neg (by simp [h])]
  show doc.resultTable.bind extractResult = _
  cases doc.resultTable with
  | none => rfl
  | some rows =>
    show extractResult rows = _
    rw [extractResult, lastValidRow_eq_spec]
    rfl

/-- Witness for C5: on `resultDoc` (two populated semester rows, then a
blank-first-cell row and an empty row) the selected summary is the second
semester row. -/
theorem result_row_selection_witness :
    (extract resultDoc []).result
      = some { semester := ("2".toList), sgpa := ("PASSED-8.50".toList), cgpa := ("8.25".toList) } :=
  (result_row_selection resultDoc [] rfl).trans (by decide)

/-- C6: a NOT_FOUND record populates none of the three data fields; a
FOUND record carries `personalDetails`/`marks` exactly when the matching
table is present and `result` only if the result table is present, and
every combination of present/absent fields is realised by some document. -/
theorem status_field_invariant :
    (∀ (doc : Doc) (htno : Str), (extract doc htno).status = Status.NOT_FOUND →
      (extract doc htno).personalDetails = none
        ∧ (extract doc htno).marks = none ∧ (extract doc htno).result = none)
    ∧ (∀ (doc : Doc) (htno : Str), (extract doc htno).status = Status.FOUND →
      (extract doc htno).personalDetails.isSome = doc.personalTable.isSome
        ∧ (extract doc htno).marks.isSome = doc.marksTable.isSome
        ∧ ((extract doc htno).result.isSome = true → doc.resultTable.isSome = true))
    ∧ (∀ b1 b2 b3 : Bool, ∃ (doc : Doc) (htno : Str),
      (extract doc htno).status = Status.FOUND
        ∧ (extract doc htno).personalDetails.isSome = b1
        ∧ (extract doc htno).marks.isSome = b2
        ∧ (extract doc htno).result.isSome = b3
        ∧ doc.personalTable.isSome = b1 ∧ doc.marksTable.isSome = b2
        ∧ doc.resultTable.isSome = b3) := by
  refine ⟨?_, ?_, ?_⟩
  · intro doc htno hs
    unfold extract at hs ⊢
    by_cases hm : matchedNotFoundText doc ≠ []
    · rw [if_pos hm]
      exact ⟨rfl, rfl, rfl⟩
    · rw [if_neg hm] at hs
      cases hs
  · intro doc htno hs
    unfold extract at hs ⊢
    by_cases hm : matchedNotFoundText doc ≠ []
    · rw [if_pos hm] at hs
      cases hs
    · rw [if_neg hm]
      refine ⟨Option.isSome_map' .., Option.isSome_map' .., ?_⟩
      cases doc.resultTable with
      | none => intro hh; cases hh
      | some rows => intro _; rfl
  · intro b1 b2 b3
    cases b1 <;> cases b2 <;> cases b3
    · exact ⟨⟨[], none, none, none⟩, [], by decide⟩
    · exact ⟨⟨[], none, none, some [[("1".toList)]]⟩, [], by decide⟩
    · exact ⟨⟨[], none, some [], none⟩, [], by decide⟩
    · exact ⟨⟨[], none, some [], some [[("1".toList)]]⟩, [], by decide⟩
    · exact ⟨⟨[], some ⟨[], [], [], [], []⟩, none, none⟩, [], by decide⟩
    · exact ⟨⟨[], some ⟨[], [], [], [], []⟩, none, some [[("1".toList)]]⟩, [], by decide⟩
    · exact ⟨⟨[], some ⟨[], [], [], [], []⟩, some [], none⟩, [], by decide⟩
    · exact ⟨⟨[], some ⟨[], [], [], [], []⟩, some [], some [[("1".toList)]]⟩, [], by decide⟩

/-- Witness for C6: the NOT_FOUND clause applied to the marker page that
also carries all three tables. -/
theorem status_field_invariant_witness :
    (extract markerDocFull []).personalDetails = none
    ∧ (extract markerDocFull []).marks = none
    ∧ (extract markerDocFull []).result = none :=
  status_field_invariant.1 markerDocFull [] (by decide)

/-- C7: when validation passes, a fetched body shorter than the plausible
minimum lands in the generic 500 error branch — an error response distinct
from the timeout (408) and network (503) responses — whereas a long-enough
body carrying the not-found marker yields a successful 200 response whose
record has status NOT_FOUND. -/
theorem short_body_parse_error (validUrl : Str → Bool) (u h : Option Str) (page : Page)
    (hv : validateRequest validUrl u h = none)
    (hshort : page.text.length < 100) :
    handlePost validUrl u h (.body page) = .internalError
    ∧ handlePost validUrl u h .timeout = .requestTimeout
    ∧ handlePost validUrl u h .networkError = .serviceUnavailable
    ∧ (ApiResponse.internalError ≠ .requestTimeout
        ∧ ApiResponse.internalError ≠ .serviceUnavailable)
    ∧ (∀ page2 : Page, 100 ≤ page2.text.length →
        (∃ t ∈ page2.doc.fontTexts, containsSub notFoundPhrase t = true) →
        handlePost validUrl u h (.body page2)
          = .ok { status := .NOT_FOUND, message := some (notFoundMessage (h.getD [])) }) := by
  refine ⟨?_, ?_, ?_, ⟨by decide, by decide⟩, ?_⟩
  · unfold handlePost
    rw [hv]
    show (if _ then _ else _) = _
    rw [if_pos (by simp [hshort])]
  · unfold handlePost
    rw [hv]
  · unfold handlePost
    rw [hv]
  · intro page2 hlong hmark
    unfold handlePost
    rw [hv]
    have hne : page2.text.isEmpty = false := by
      cases hp : page2.text with
      | nil =>
        rw [hp] at hlong
        simp at hlong
      | cons a t => rfl
    show (if _ then _ else _) = _
    rw [if_neg (by
      simp only [hne, Bool.false_or, decide_eq_true_eq, not_lt]
      omega)]
    obtain ⟨t, hmem, hc⟩ := hmark
    unfold extract
    rw [if_pos (matchedNotFoundText_ne_nil page2.doc t hmem hc)]

/-- C8: whenever a required field is missing/empty, the hall ticket number
is not exactly twelve digits, or the URL does not parse, the handler
answers 400 with the matching message, independently of the fetch outcome
— the outbound call is never consulted. -/
theorem invalid_input_blocks (validUrl : Str → Bool) (u h : Option Str)
    (hbad : ¬(truthy u = true ∧ truthy h = true
        ∧ isValidHtno (h.getD []) = true ∧ validUrl (u.getD []) = true)) :
    ∃ m, ∀ outcome, handlePost validUrl u h outcome = .badRequest m := by
  unfold handlePost validateRequest
  by_cases h1 : (!truthy u || !truthy h) = true
  · exact ⟨msgRequired, fun o => by rw [if_pos h1]⟩
  · by_cases h2 : (!isValidHtno (h.getD [])) = true
    · exact ⟨msgDigits, fun o => by rw [if_neg h1, if_pos h2]⟩
    · by_cases h3 : (!validUrl (u.getD [])) = true
      · exact ⟨msgUrl, fun o => by rw [if_neg h1, if_neg h2, if_pos h3]⟩
      · exfalso
        apply hbad
        simp only [Bool.or_eq_true, Bool.not_eq_true', not_or] at h1
        simp only [Bool.not_eq_true'] at h2 h3
        exact ⟨by simp [h1.1], by simp [h1.2], by simp [h2], by simp [h3]⟩

/-- Witness for C7: a validated request whose fetched body is the
4-character page `"oops"`. -/
theorem short_body_parse_error_witness :
    validateRequest sampleValidUrl sampleUrl sampleHtno = none
    ∧ shortPage.text.length < 100
    ∧ handlePost sampleValidUrl sampleUrl sampleHtno (.body shortPage) = .internalError :=
  ⟨by decide, by decide,
    (short_body_parse_error sampleValidUrl sampleUrl sampleHtno shortPage
      (by decide) (by decide)).1⟩

/-- Witness for C8: a request with the `url` field missing is rejected
with a 400 response whatever the fetch oracle would have answered. -/
theorem invalid_input_blocks_witness :
    ∃ m, ∀ outcome, handlePost sampleValidUrl none sampleHtno outcome = .badRequest m :=
  invalid_input_blocks sampleValidUrl none sampleHtno (by decide)

/-! ## Lemmas about the fallback URL rewriting -/

theorem isPrefixOf_iff_append (l s : Str) :
    l.isPrefixOf s = true ↔ ∃ t, s = l ++ t := by
  induction l generalizing s with
  | nil => simp [List.isPrefixOf]
  | cons a l ih =>
    cases s with
    | nil => simp [List.isPrefixOf]
    | cons b s =>
      simp only [List.isPrefixOf, Bool.and_eq_true, beq_iff_eq, ih, List.cons_append,
        List.cons.injEq]
      constructor
      · rintro ⟨rfl, t, rfl⟩
        exact ⟨t, rfl, rfl⟩
      · rintro ⟨t, rfl, rfl⟩
        exact ⟨rfl, t, rfl⟩

theorem replaceFirst_of_not_contains (pat rep s : Str)
    (hc : containsSub pat s = false) : replaceFirst pat rep s = s := by
  induction s with
  | nil =>
    unfold containsSub at hc
    unfold replaceFirst
    rw [if_neg (by simp [hc])]
  | cons c rest ih =>
    simp only [containsSub, Bool.or_eq_false_iff] at hc
    unfold replaceFirst
    rw [if_neg (by simp [hc.1]), ih hc.2]

/-- `replaceFirst` really replaces the first occurrence: any string
containing the pattern splits as `a ++ pat ++ b` with the replacement
yielding `a ++ rep ++ b`. -/
theorem replaceFirst_decomp (pat rep s : Str)
    (hc : containsSub pat s = true) :
    ∃ a b, s = a ++ pat ++ b ∧ replaceFirst pat rep s = a ++ rep ++ b := by
  induction s with
  | nil =>
    unfold containsSub at hc
    obtain ⟨t, ht⟩ := (isPrefixOf_iff_append pat []).mp hc
    obtain ⟨hp, htn⟩ := List.append_eq_nil.mp ht.symm
    refine ⟨[], [], by simp [hp], ?_⟩
    unfold replaceFirst
    rw [if_pos hc]
    simp
  | cons c rest ih =>
    by_cases hp : pat.isPrefixOf (c :: rest) = true
    · obtain ⟨t, ht⟩ := (isPrefixOf_iff_append pat (c :: rest)).mp hp
      refine ⟨[], t, by simpa using ht, ?_⟩
      show replaceFirst pat rep (c :: rest) = _
      unfold replaceFirst
      rw [if_pos hp, ht, List.drop_left]
      simp
    · have hrest : containsSub pat rest = true := by
        have hh := hc
        simp only [containsSub, Bool.or_eq_true] at hh
        rcases hh with hh | hh
        · exact absurd hh hp
        · exact hh
      obtain ⟨a, b, hs, hr⟩ := ih hrest
      refine ⟨c :: a, b, by simp [hs], ?_⟩
      show replaceFirst pat rep (c :: rest) = _
      unfold replaceFirst
      rw [if_neg hp, hr]
      simp

/-- C10 (amended): the fallback tries the ordered two-element candidate
list — the configured URL, then its textual `www.` toggle — with
short-circuit on the first success and failure when both fail; the toggle
removes the first occurrence of `"www."` when one is present, otherwise it
rewrites the first `"https://"` to `"https://www."`, leaving a URL with
neither substring (e.g. plain-http) unchanged. -/
theorem fallback_policy {R : Type} (tryFetch : Str → Option R) (u : Str) :
    fetchResultWithFallback tryFetch u = tryUrls tryFetch [u, toggleWww u]
    ∧ (∀ r, tryFetch u = some r → fetchResultWithFallback tryFetch u = some r)
    ∧ (tryFetch u = none →
        fetchResultWithFallback tryFetch u = tryFetch (toggleWww u))
    ∧ (containsSub wwwL u = true →
        ∃ a b, u = a ++ wwwL ++ b ∧ toggleWww u = a ++ b)
    ∧ (containsSub wwwL u = false → containsSub httpsL u = true →
        ∃ a b, u = a ++ httpsL ++ b ∧ toggleWww u = a ++ httpsWwwL ++ b)
    ∧ (containsSub wwwL u = false → containsSub httpsL u = false →
        toggleWww u = u) := by
  refine ⟨rfl, ?_, ?_, ?_, ?_, ?_⟩
  · intro r hr
    unfold fetchResultWithFallback candidateUrls tryUrls
    rw [hr]
  · intro hr
    unfold fetchResultWithFallback candidateUrls tryUrls
    rw [hr]
    unfold tryUrls
    cases ht : tryFetch (toggleWww u) with
    | none => rfl
    | some r => rfl
  · intro hw
    unfold toggleWww
    rw [if_pos hw]
    obtain ⟨a, b, hs, hr⟩ := replaceFirst_decomp wwwL [] u hw
    exact ⟨a, b, hs, by rw [hr]; simp⟩
  · intro hw hh
    unfold toggleWww
    rw [if_neg (by simp [hw])]
    exact replaceFirst_decomp httpsL httpsWwwL u hh
  · intro hw hh
    unfold toggleWww
    rw [if_neg (by simp [hw])]
    exact replaceFirst_of_not_contains httpsL httpsWwwL u hh

/-- C10 (counterexample): for the configured URL `"http://example.com"`
(no `www.`, not https) the second candidate is the *same* URL — no `www.`
prefix is added, contradicting "toggled (added if absent)". -/
theorem fallback_toggle_cex :
    toggleWww ("http://example.com".toList) = ("http://example.com".toList)
    ∧ candidateUrls ("http://example.com".toList)
        = [("http://example.com".toList), ("http://example.com".toList)]
    ∧ normalizeUrl ("http://example.com".toList) = ("http://example.com".toList) := by
  refine ⟨by decide, by decide, by decide⟩

/-- Witness for C10 (amended): the short-circuit clause at a concrete
oracle succeeding on the first candidate. -/
theorem fallback_policy_witness :
    fetchResultWithFallback sampleFetch ("https://www.x".toList) = some 7 :=
  (fallback_policy sampleFetch ("https://www.x".toList)).2.1 7 (by decide)

/-! ## Lemmas about the range orchestrator -/

theorem take_range' (s n k : Nat) (h : k ≤ n) :
    (List.range' s n).take k = List.range' s k := by
  have hsplit : List.range' s k ++ List.range' (s + k) (n - k) = List.range' s n := by
    have he : n - k + k = n := by omega
    rw [← he, ← List.range'_append_1]
    congr 2
    omega
  calc (List.range' s n).take k
      = ((List.range' s k ++ List.range' (s + k) (n - k)).take k) := by rw [hsplit]
    _ = ((List.range' s k ++ List.range' (s + k) (n - k)).take (List.range' s k).length) := by
        simp
    _ = List.range' s k := List.take_left _ _

/-- Behaviour of the orchestration loop body on an explicit list of roll
numbers: some prefix of the list succeeds and is collected in order; either
the whole list succeeded and no error is reported, or the element right
after the prefix failed and is reported. -/
theorem runRolls_spec (oracle : Str → Option StudentRecord) (rolls : List Nat) :
    ∃ k, k ≤ rolls.length
      ∧ (runRolls oracle rolls).1
          = (rolls.take k).filterMap (fun n => oracle (padTo12 n))
      ∧ (∀ n ∈ rolls.take k, (oracle (padTo12 n)).isSome = true)
      ∧ ((runRolls oracle rolls).2 = none ∧ k = rolls.length
          ∨ ∃ n, rolls[k]? = some n ∧ (runRolls oracle rolls).2 = some n
              ∧ oracle (padTo12 n) = none) := by
  induction rolls with
  | nil => exact ⟨0, le_rfl, rfl, by simp, Or.inl ⟨rfl, rfl⟩⟩
  | cons m rest ih =>
    cases ho : oracle (padTo12 m) with
    | none =>
      refine ⟨0, Nat.zero_le _, ?_, by simp, Or.inr ⟨m, by simp, ?_, ho⟩⟩
      · show (runRolls oracle (m :: rest)).1 = []
        simp [runRolls, ho]
      · show (runRolls oracle (m :: rest)).2 = some m
        simp [runRolls, ho]
    | some r =>
      obtain ⟨k, hk, h1, h2, h3⟩ := ih
      refine ⟨k + 1, by simpa using hk, ?_, ?_, ?_⟩
      · show (runRolls oracle (m :: rest)).1 = _
        simp only [runRolls, ho, List.take_succ_cons, List.filterMap_cons]
        rw [h1]
      · intro n hn
        rw [List.take_succ_cons] at hn
        rcases List.mem_cons.mp hn with rfl | hn
        · rw [ho]
          rfl
        · exact h2 n hn
      · rcases h3 with ⟨hnone, hlen⟩ | ⟨n, hget, hsnd, hnone⟩
        · left
          constructor
          · show (runRolls oracle (m :: rest)).2 = none
            simp [runRolls, ho, hnone]
          · simp [hlen]
        · right
          refine ⟨n, by simpa using hget, ?_, hnone⟩
          show (runRolls oracle (m :: rest)).2 = some n
          simp [runRolls, ho, hsnd]

/-- The numeric `for` loop equals the loop over the explicit ascending
roll-number list. -/
theorem fetchResults_eq_runRolls (oracle : Str → Option StudentRecord)
    (start fin : Nat) :
    fetchResults oracle start fin
      = runRolls oracle (List.range' start (fin + 1 - start)) := by
  generalize hk : fin + 1 - start = k
  induction k generalizing start with
  | zero =>
    unfold fetchResults
    rw [if_pos (by omega)]
    rfl
  | succ k ih =>
    unfold fetchResults
    rw [if_neg (by omega)]
    rw [List.range'_succ]
    show _ = runRolls oracle (start :: List.range' (start + 1) k)
    cases ho : oracle (padTo12 start) with
    | none => simp [runRolls, ho]
    | some r =>
      simp only [runRolls, ho]
      rw [ih (start + 1) (by omega)]

/-! ## Claim theorem C9 -/

/-- C9: the orchestrator walks the inclusive roll-number range in
ascending order, fetching each roll number re-padded to 12 digits and
collecting one record per successful roll in that order; it stops at the
first hard failure, keeping the ascending prefix gathered so far and
reporting the failing roll number; when no roll fails it covers the whole
range and reports no error. -/
theorem range_orchestrator (oracle : Str → Option StudentRecord)
    (start fin : Nat) :
    ∃ k, k ≤ fin + 1 - start
      ∧ (fetchResults oracle start fin).1
          = (List.range' start k).filterMap (fun n => oracle (padTo12 n))
      ∧ (∀ n ∈ List.range' start k, (oracle (padTo12 n)).isSome = true)
      ∧ ((fetchResults oracle start fin).2 = none ∧ k = fin + 1 - start
          ∨ (fetchResults oracle start fin).2 = some (start + k)
              ∧ start + k ≤ fin ∧ oracle (padTo12 (start + k)) = none) := by
  obtain ⟨k, hk, h1, h2, h3⟩ := runRolls_spec oracle (List.range' start (fin + 1 - start))
  rw [List.length_range'] at hk
  rw [take_range' _ _ _ hk] at h1 h2
  rw [fetchResults_eq_runRolls]
  refine ⟨k, hk, h1, h2, ?_⟩
  rcases h3 with ⟨hnone, hlen⟩ | ⟨n, hget, hsnd, hone⟩
  · left
    rw [List.length_range'] at hlen
    exact ⟨hnone, hlen⟩
  · right
    have hlt : k < fin + 1 - start := by
      by_contra hge
      rw [List.getElem?_eq_none (by simp; omega)] at hget
      cases hget
    rw [List.getElem?_range' _ _ hlt] at hget
    have hn : n = start + k := by
      have := Option.some.inj hget
      omega
    subst hn
    exact ⟨hsnd, by omega, hone⟩

/-- Witness for C9: the orchestrator's contract instantiated on the
concrete range `[3, 5]` with an oracle that never hard-fails. -/
theorem range_orchestrator_witness :
    ∃ k, k ≤ 5 + 1 - 3
      ∧ (fetchResults sampleOracle 3 5).1
          = (List.range' 3 k).filterMap (fun n => sampleOracle (padTo12 n))
      ∧ (∀ n ∈ List.range' 3 k, (sampleOracle (padTo12 n)).isSome = true)
      ∧ ((fetchResults sampleOracle 3 5).2 = none ∧ k = 5 + 1 - 3
          ∨ (fetchResults sampleOracle 3 5).2 = some (3 + k)
              ∧ 3 + k ≤ 5 ∧ sampleOracle (padTo12 (3 + k)) = none) :=
  range_orchestrator sampleOracle 3 5

end OU
